import Mathlib

/-!
Verification development for the transposition-table module of the Ethereal
chess engine fork (src/src/transposition.c together with src/src/types.h).

The C code is shallowly embedded: machine integers become `Nat`/`Int` with
explicit truncation where the C code performs a conversion, the global
`Table` / `verificationHashes` state becomes an explicit `TTState` value
threaded through the operations, and fallible lookups return `Option`.

The companion header transposition.h and the Board structure (board.h) are
not part of the provided sources; the constants and record shapes they
declare are modelled from the specification, as marked on each definition.
-/

/-! ## Constants from src/src/types.h -/

/-- `MAX_PLY = 128` (types.h). -/
def MAX_PLY : Int := 128

/-- `TBWIN = 31000 + MAX_PLY` (types.h). -/
def TBWIN : Int := 31000 + MAX_PLY

/-- `TBWIN_IN_MAX = TBWIN - MAX_PLY` (types.h), i.e. 31000. -/
def TBWIN_IN_MAX : Int := TBWIN - MAX_PLY

/-! ## Constants modelled from the spec (transposition.h is not in the
provided sources).  The bound field occupies the low 2 bits of the
generation byte, the age the high 6 bits, and buckets hold 3 slots. -/

/-- Modelled from the spec: bound classification "none" (empty/unused). -/
def BOUND_NONE : Nat := 0

/-- Modelled from the spec: bound classification "lower bound". -/
def BOUND_LOWER : Nat := 1

/-- Modelled from the spec: bound classification "upper bound". -/
def BOUND_UPPER : Nat := 2

/-- Modelled from the spec: bound classification "exact". -/
def BOUND_EXACT : Nat := 3

/-- Modelled from the spec: mask of the 2-bit bound field of the generation
byte. -/
def TT_MASK_BOUND : Nat := 0x03

/-- Modelled from the spec: mask of the 6-bit age field of the generation
byte (the complement of the bound-field mask within a byte). -/
def TT_MASK_AGE : Nat := 0xFC

/-- Modelled from the spec: number of slots per bucket. -/
def TT_BUCKET_NB : Nat := 3

/-- `sizeof(TTBucket)` in bytes.  Evidenced by the assert in `initTT`:
`(1ull << 16ull) * sizeof(TTBucket) == 2 * MB`, hence 2^21 / 2^16 = 32. -/
def sizeofTTBucket : Nat := 32

/-! ## Data model -/

/-- One cache slot.  Modelled from the spec: a signed 8-bit depth, an 8-bit
generation byte (low 2 bits bound, high 6 bits age), signed 16-bit score and
static evaluation, a 16-bit move and the 16-bit truncated hash signature.
The fields are `Nat`/`Int`; the writes in `storeTTEntry` perform the
explicit truncations of the C casts. -/
structure TTEntry where
  depth : Int
  generation : Nat
  eval : Int
  value : Int
  move : Nat
  hash16 : Nat
deriving DecidableEq

/-- The all-zero slot produced by `memset`/`calloc`. -/
def TTEntry.zero : TTEntry := ⟨0, 0, 0, 0, 0, 0⟩

/-- The Board, as consumed by this module.  Modelled from the spec
(board.h is not in the provided sources): the leading eight 64-bit raw
words (read through `(const uint64_t *)board` in `boardToBoardHashSrc`),
the 64-bit composite castling-rights field, the en-passant square
(-1 = none) and the side to move. -/
structure Board where
  w0 : Nat
  w1 : Nat
  w2 : Nat
  w3 : Nat
  w4 : Nat
  w5 : Nat
  w6 : Nat
  w7 : Nat
  castleRooks : Nat
  epSquare : Int
  turn : Nat

/-- Validity of a Board, modelled from the spec: every board byte holds a
piece code 0-14 (so the high nibble of every byte of the raw words is
clear), and castling rooks live on the first and last ranks (so only the
low and high byte of the composite castling field can be set). -/
def ValidBoard (b : Board) : Prop :=
  b.w0 < 2 ^ 64 ∧ b.w1 < 2 ^ 64 ∧ b.w2 < 2 ^ 64 ∧ b.w3 < 2 ^ 64 ∧
  b.w4 < 2 ^ 64 ∧ b.w5 < 2 ^ 64 ∧ b.w6 < 2 ^ 64 ∧ b.w7 < 2 ^ 64 ∧
  b.w0 &&& 0xF0F0F0F0F0F0F0F0 = 0 ∧ b.w1 &&& 0xF0F0F0F0F0F0F0F0 = 0 ∧
  b.w2 &&& 0xF0F0F0F0F0F0F0F0 = 0 ∧ b.w3 &&& 0xF0F0F0F0F0F0F0F0 = 0 ∧
  b.w4 &&& 0xF0F0F0F0F0F0F0F0 = 0 ∧ b.w5 &&& 0xF0F0F0F0F0F0F0F0 = 0 ∧
  b.w6 &&& 0xF0F0F0F0F0F0F0F0 = 0 ∧ b.w7 &&& 0xF0F0F0F0F0F0F0F0 = 0 ∧
  b.castleRooks < 2 ^ 64 ∧ b.castleRooks &&& 0x00FFFFFFFFFFFF00 = 0

instance (b : Board) : Decidable (ValidBoard b) := by
  unfold ValidBoard; infer_instance

/-- The packed verification record (`BoardHashSrc`).  Four nibble-packed
64-bit words, one castling byte per side, en-passant square, side to move
and a padding byte. -/
structure BoardHashSrc where
  ps0 : Nat
  ps1 : Nat
  ps2 : Nat
  ps3 : Nat
  castleRooksW : Nat
  castleRooksB : Nat
  epSquare : Int
  turn : Nat
  padding : Nat
deriving DecidableEq

/-- The all-zero verification record produced by `calloc`. -/
def BoardHashSrc.zero : BoardHashSrc := ⟨0, 0, 0, 0, 0, 0, 0, 0, 0⟩

/-- `boardToBoardHashSrc` (transposition.c:275).  Packs raw-word pairs as
`rawBoard[2i] | (rawBoard[2i+1] << 4)` in 64-bit arithmetic (the shift
wraps modulo 2^64) and splits the composite castling field into its low
and high byte. -/
def boardToBoardHashSrc (b : Board) : BoardHashSrc :=
  { ps0 := b.w0 ||| (b.w1 <<< 4) % 2 ^ 64
    ps1 := b.w2 ||| (b.w3 <<< 4) % 2 ^ 64
    ps2 := b.w4 ||| (b.w5 <<< 4) % 2 ^ 64
    ps3 := b.w6 ||| (b.w7 <<< 4) % 2 ^ 64
    castleRooksW := b.castleRooks &&& 0xFF
    castleRooksB := (b.castleRooks >>> 56) &&& 0xFF
    epSquare := b.epSquare
    turn := b.turn
    padding := 0 }

/-- The process-wide transposition-cache state: the global `TTable Table`
(hashMask, generation and the bucket array, a bucket being its 3 slots)
together with the parallel `verificationHashes` array (flat-indexed by
`(hash & hashMask) * 3 + slot`) and the two diagnostic counters. -/
structure TTState where
  hashMask : Nat
  generation : Nat
  buckets : Nat → Fin 3 → TTEntry
  verif : Nat → BoardHashSrc
  passedLookups : Nat
  verificationFailures : Nat

/-- A zeroed state (C globals are zero-initialized). -/
def ttInit : TTState :=
  { hashMask := 0, generation := 0, buckets := fun _ _ => TTEntry.zero,
    verif := fun _ => BoardHashSrc.zero, passedLookups := 0,
    verificationFailures := 0 }

/-! ## Pure helpers for the C integer conversions -/

/-- Conversion to `int8_t`: wrap into [-128, 127]. -/
def toInt8 (x : Int) : Int := (x + 128) % 256 - 128

/-- Conversion to `int16_t`: wrap into [-32768, 32767]. -/
def toInt16 (x : Int) : Int := (x + 32768) % 65536 - 32768

/-! ## Operations of transposition.c -/

/-- The 16-bit probe signature `hash >> 48` of a 64-bit hash
(`const uint16_t hash16 = hash >> 48`). -/
def ttH16 (hash : Nat) : Nat := (hash >>> 48) % 65536

/-- The bucket index `hash & Table.hashMask`. -/
def ttIdx (s : TTState) (hash : Nat) : Nat := hash &&& s.hashMask

/-- `valueFromTT` (transposition.c:125). -/
def valueFromTT (value height : Int) : Int :=
  if value ≥ TBWIN_IN_MAX then value - height
  else if value ≤ -TBWIN_IN_MAX then value + height
  else value

/-- `valueToTT` (transposition.c:134). -/
def valueToTT (value height : Int) : Int :=
  if value ≥ TBWIN_IN_MAX then value + height
  else if value ≤ -TBWIN_IN_MAX then value - height
  else value

/-- The sizing loop of `initTT`:
`while ((1ull << keySize) * sizeof(TTBucket) <= megabytes * MB / 2) keySize++`.
`fuel` bounds the recursion; `ttKeySize` supplies enough fuel for the loop
to reach its exit condition. -/
def ttSizeLoop (limit : Nat) : Nat → Nat → Nat
  | 0, k => k
  | fuel + 1, k =>
    if 2 ^ k * sizeofTTBucket ≤ limit then ttSizeLoop limit fuel (k + 1) else k

/-- The key size chosen by `initTT`: start at 16 bits and search upward. -/
def ttKeySize (megabytes : Nat) : Nat :=
  ttSizeLoop (megabytes * 2 ^ 20 / 2) megabytes 16

/-- `initTT` (transposition.c:52).  Reallocates the bucket array with
`2^keySize` buckets, zero-allocates the verification array, sets
`Table.hashMask = 2^keySize - 1`, and ends in `clearTT()`; the buckets
are therefore zero up to the mask (indices above the mask are never
accessed, so they are modelled as zero as well).  `Table.generation` and
the counters survive the reallocation. -/
def initTT (s : TTState) (megabytes : Nat) : TTState :=
  { hashMask := 2 ^ ttKeySize megabytes - 1
    generation := s.generation
    buckets := fun _ _ => TTEntry.zero
    verif := fun _ => BoardHashSrc.zero
    passedLookups := s.passedLookups
    verificationFailures := s.verificationFailures }

/-- `hashSizeMBTT` (transposition.c:84). -/
def hashSizeMBTT (s : TTState) : Nat :=
  (s.hashMask + 1) * sizeofTTBucket / 2 ^ 20

/-- `updateTT` (transposition.c:88): `Table.generation += TT_MASK_BOUND + 1`
on a `uint8_t`, so the addition wraps modulo 256. -/
def updateTT (s : TTState) : TTState :=
  { s with generation := (s.generation + TT_MASK_BOUND + 1) % 256 }

/-- `clearTT` (transposition.c:99): `memset` zeroes the buckets with
indices 0..hashMask and touches nothing else - in particular the
verification array is left as it was. -/
def clearTT (s : TTState) : TTState :=
  { s with buckets := fun i => if i ≤ s.hashMask then fun _ => TTEntry.zero else s.buckets i }

/-- `hashfullTT` (transposition.c:107): count the slots of the first 1000
buckets whose bound field is not `BOUND_NONE` and whose age field equals
`Table.generation`, then divide by the bucket width. -/
def hashfullTT (s : TTState) : Nat :=
  (∑ i in Finset.range 1000, ∑ j : Fin 3,
    if (s.buckets i j).generation &&& TT_MASK_BOUND ≠ BOUND_NONE ∧
       (s.buckets i j).generation &&& TT_MASK_AGE = s.generation then 1 else 0) /
  TT_BUCKET_NB

/-- `verifyTTEntry` (transposition.c:149): pack the live board, compare it
byte-for-byte (structurally) with the stored verification record at
`(hash & hashMask) * 3 + slot`, bump `verificationFailures` on a mismatch
against a record whose packed words are not all zero, and always bump
`passedLookups`.  Returns `true` on a mismatch. -/
def verifyTTEntry (s : TTState) (hash : Nat) (slot : Fin 3) (b : Board) :
    Bool × TTState :=
  let hashSrc := boardToBoardHashSrc b
  let vb := s.verif (ttIdx s hash * 3 + slot.val)
  let mismatch : Bool := decide (hashSrc ≠ vb)
  let countedFailure : Bool :=
    mismatch && !(decide (vb.ps0 = 0 ∧ vb.ps1 = 0 ∧ vb.ps2 = 0 ∧ vb.ps3 = 0))
  (mismatch,
    { s with passedLookups := s.passedLookups + 1
             verificationFailures :=
               s.verificationFailures + (if countedFailure then 1 else 0) })

/-- The probe/store bucket scan: the first slot whose `hash16` equals the
probe signature, scanning slots 0, 1, 2 in order. -/
def firstMatch (slots : Fin 3 → TTEntry) (h16 : Nat) : Option (Fin 3) :=
  if (slots 0).hash16 = h16 then some 0
  else if (slots 1).hash16 = h16 then some 1
  else if (slots 2).hash16 = h16 then some 2
  else none

/-- The replacement score of a slot inside `storeTTEntry`:
`depth - ((259 + Table.generation - slot.generation) & TT_MASK_AGE)`.
The subtraction happens in C `int` arithmetic on `uint8_t` generation
values, so it is nonnegative there; the `Nat` subtraction here agrees
with it for generation bytes. -/
def ttScore (g : Nat) (e : TTEntry) : Int :=
  e.depth - ((259 + g - e.generation) &&& TT_MASK_AGE : Nat)

/-- The replacement-candidate fold of `storeTTEntry`'s scan: starting from
slot 0, move to slot i whenever the current candidate's score is `>=`
slot i's score (the i = 0 step of the C loop is a no-op). -/
def replaceIdx (g : Nat) (slots : Fin 3 → TTEntry) : Fin 3 :=
  let r1 : Fin 3 := if ttScore g (slots 1) ≤ ttScore g (slots 0) then 1 else 0
  if ttScore g (slots 2) ≤ ttScore g (slots r1) then 2 else r1

/-- The slot `storeTTEntry` targets: the first signature match if there is
one, otherwise the weakest slot by replacement score. -/
def storeTarget (g : Nat) (slots : Fin 3 → TTEntry) (h16 : Nat) : Fin 3 :=
  match firstMatch slots h16 with
  | some i => i
  | none => replaceIdx g slots

/-- The discard condition of `storeTTEntry` (transposition.c:232):
`bound != BOUND_EXACT && hash16 == replace->hash16 && depth < replace->depth - 3`. -/
def ttDiscard (e : TTEntry) (h16 : Nat) (depth : Int) (bound : Nat) : Prop :=
  bound ≠ BOUND_EXACT ∧ h16 = e.hash16 ∧ depth < e.depth - 3

instance (e : TTEntry) (h16 : Nat) (depth : Int) (bound : Nat) :
    Decidable (ttDiscard e h16 depth bound) := by
  unfold ttDiscard; infer_instance

/-- `getTTEntry` (transposition.c:183): scan the bucket for the first
signature match; on a match run verification, returning a miss when it
fails; otherwise refresh the slot's age while keeping its bound bits and
return the stored data along with the slot index. -/
structure TTHit where
  move : Nat
  value : Int
  eval : Int
  depth : Int
  bound : Nat
  slot : Fin 3
deriving DecidableEq

def getTTEntry (s : TTState) (hash : Nat) (b : Board) :
    Option TTHit × TTState :=
  let h16 := ttH16 hash
  let idx := ttIdx s hash
  let slots := s.buckets idx
  match firstMatch slots h16 with
  | none => (none, s)
  | some i =>
    let v := verifyTTEntry s hash i b
    if v.1 then (none, v.2)
    else
      let e := slots i
      let g' := s.generation ||| (e.generation &&& TT_MASK_BOUND)
      let s2 := { v.2 with
        buckets := Function.update v.2.buckets idx
          (Function.update slots i { e with generation := g' }) }
      (some ⟨e.move, e.value, e.eval, e.depth, g' &&& TT_MASK_BOUND, i⟩, s2)

/-- The slot contents written by `storeTTEntry`, with the C casts made
explicit: `(int8_t)depth`, `(uint8_t)bound | Table.generation`,
`(int16_t)value`, `(int16_t)eval`, `(uint16_t)move` and the signature. -/
def ttNewEntry (g : Nat) (h16 move : Nat) (value eval depth : Int)
    (bound : Nat) : TTEntry :=
  { depth := toInt8 depth
    generation := bound % 256 ||| g
    eval := toInt16 eval
    value := toInt16 value
    move := move % 65536
    hash16 := h16 }

/-- `storeTTEntry` (transposition.c:213): pick the target slot (signature
match if any, otherwise the weakest by replacement score), discard the
store entirely under the shallow-non-exact-same-position condition, and
otherwise overwrite the slot and its verification record. -/
def storeTTEntry (s : TTState) (hash move : Nat) (value eval depth : Int)
    (bound : Nat) (b : Board) : TTState :=
  let h16 := ttH16 hash
  let idx := ttIdx s hash
  let slots := s.buckets idx
  let t := storeTarget s.generation slots h16
  if ttDiscard (slots t) h16 depth bound then s
  else
    { s with
      buckets := Function.update s.buckets idx
        (Function.update slots t (ttNewEntry s.generation h16 move value eval depth bound))
      verif := Function.update s.verif (idx * 3 + t.val) (boardToBoardHashSrc b) }

/-! ## Pawn/king cache (transposition.c:263-273) -/

/-- A pawn/king cache slot: the full 64-bit hash, the passed-pawn bitboard
and the evaluation score. -/
structure PKEntry where
  pkhash : Nat
  passed : Nat
  eval : Int
deriving DecidableEq

/-- The pawn/king cache: direct-mapped, one slot per index.  Modelled as a
total function on indices; the index of a probe is a fixed right-shift of
the hash.  The shift amount `PKT_HASH_SHIFT` is declared in the missing
header, so the operations take it as a parameter (the claims hold for
every value of it). -/
structure PKTable where
  entries : Nat → PKEntry

/-- `getPKEntry` (transposition.c:263): return the directly mapped slot
when its stored hash equals the probe hash, otherwise report absent. -/
def getPKEntry (shift : Nat) (t : PKTable) (pkhash : Nat) : Option PKEntry :=
  let e := t.entries (pkhash >>> shift)
  if e.pkhash = pkhash then some e else none

/-- `storePKEntry` (transposition.c:268): unconditionally overwrite the
directly mapped slot. -/
def storePKEntry (shift : Nat) (t : PKTable) (pkhash passed : Nat)
    (eval : Int) : PKTable :=
  { entries := Function.update t.entries (pkhash >>> shift) ⟨pkhash, passed, eval⟩ }

/-! ## Helper lemmas -/

lemma or_three_and_three (g : Nat) : (3 ||| g) &&& 3 = 3 := by
  apply Nat.eq_of_testBit_eq
  intro i
  simp only [Nat.testBit_and, Nat.testBit_or]
  cases h3 : Nat.testBit 3 i <;> cases hg : Nat.testBit g i <;> simp

lemma or_three_and_three' (g : Nat) : (g ||| 3) &&& 3 = 3 := by
  apply Nat.eq_of_testBit_eq
  intro i
  simp only [Nat.testBit_and, Nat.testBit_or]
  cases h3 : Nat.testBit 3 i <;> cases hg : Nat.testBit g i <;> simp

lemma firstMatch_none_iff (slots : Fin 3 → TTEntry) (h16 : Nat) :
    firstMatch slots h16 = none ↔ ∀ j : Fin 3, (slots j).hash16 ≠ h16 := by
  unfold firstMatch
  constructor
  · intro h
    split_ifs at h with h0 h1 h2
    intro j
    fin_cases j <;> assumption
  · intro hall
    rw [if_neg (hall 0), if_neg (hall 1), if_neg (hall 2)]

lemma firstMatch_some (slots : Fin 3 → TTEntry) (h16 : Nat) (t : Fin 3)
    (h : firstMatch slots h16 = some t) :
    (slots t).hash16 = h16 ∧ ∀ j : Fin 3, j < t → (slots j).hash16 ≠ h16 := by
  unfold firstMatch at h
  split_ifs at h with h0 h1 h2 <;>
    (injection h with h'; subst h')
  · exact ⟨h0, fun j hj => absurd hj (by simp [Fin.lt_def])⟩
  · refine ⟨h1, fun j hj => ?_⟩
    have : j = 0 := by
      apply Fin.ext
      have := hj
      simp [Fin.lt_def] at this
      omega
    rw [this]; exact h0
  · refine ⟨h2, fun j hj => ?_⟩
    have hv : j.val < 2 := hj
    interval_cases h : j.val
    · have : j = 0 := Fin.ext h
      rw [this]; exact h0
    · have : j = 1 := Fin.ext h
      rw [this]; exact h1

lemma firstMatch_update (slots : Fin 3 → TTEntry) (h16 : Nat) (t : Fin 3)
    (e : TTEntry) (he : e.hash16 = h16)
    (hpre : ∀ j : Fin 3, j < t → (slots j).hash16 ≠ h16) :
    firstMatch (Function.update slots t e) h16 = some t := by
  fin_cases t
  · show firstMatch (Function.update slots 0 e) h16 = some 0
    unfold firstMatch
    rw [Function.update_same, if_pos he]
  · show firstMatch (Function.update slots 1 e) h16 = some 1
    unfold firstMatch
    rw [Function.update_noteq (by decide : (0 : Fin 3) ≠ 1) e slots,
      if_neg (hpre 0 (by decide)), Function.update_same, if_pos he]
  · show firstMatch (Function.update slots 2 e) h16 = some 2
    unfold firstMatch
    rw [Function.update_noteq (by decide : (0 : Fin 3) ≠ 2) e slots,
      if_neg (hpre 0 (by decide)),
      Function.update_noteq (by decide : (1 : Fin 3) ≠ 2) e slots,
      if_neg (hpre 1 (by decide)), Function.update_same, if_pos he]

lemma storeTarget_pre (g : Nat) (slots : Fin 3 → TTEntry) (h16 : Nat) :
    ∀ j : Fin 3, j < storeTarget g slots h16 → (slots j).hash16 ≠ h16 := by
  unfold storeTarget
  cases hfm : firstMatch slots h16 with
  | some i =>
    intro j hj
    exact (firstMatch_some slots h16 i hfm).2 j hj
  | none =>
    intro j _
    exact (firstMatch_none_iff slots h16).mp hfm j

/-! ## Claims -/

/-- C6: mate-score round trip.  For `0 ≤ h ≤ 128` and `|v| ≥ 31000`,
`valueFromTT (valueToTT v h) h = v`; for `|v| < 31000` both functions are
the identity. -/
theorem C6_mate_score_round_trip (v h : Int) (h0 : 0 ≤ h) (h128 : h ≤ 128) :
    (31000 ≤ |v| → valueFromTT (valueToTT v h) h = v) ∧
    (|v| < 31000 → valueToTT v h = v ∧ valueFromTT v h = v) := by
  unfold valueFromTT valueToTT TBWIN_IN_MAX TBWIN MAX_PLY
  constructor
  · intro hv
    have hv' : 31000 ≤ v ∨ 31000 ≤ -v := le_abs.mp hv
    split_ifs <;> omega
  · intro hv
    have hv' : -31000 < v ∧ v < 31000 := abs_lt.mp hv
    split_ifs <;> omega

/-- Witness for C6 at `v = 31005`, `h = 7` and at `v = -40`, `h = 7`. -/
theorem C6_mate_score_round_trip_witness :
    valueFromTT (valueToTT 31005 7) 7 = 31005 ∧ valueToTT (-40) 7 = -40 := by
  constructor
  · exact (C6_mate_score_round_trip 31005 7 (by norm_num) (by norm_num)).1
      (by norm_num)
  · exact ((C6_mate_score_round_trip (-40) 7 (by norm_num) (by norm_num)).2
      (by norm_num)).1

lemma ttSizeLoop_spec (limit : Nat) :
    ∀ fuel k, limit < 2 ^ (k + fuel) * sizeofTTBucket →
      k ≤ ttSizeLoop limit fuel k ∧
      limit < 2 ^ ttSizeLoop limit fuel k * sizeofTTBucket ∧
      (ttSizeLoop limit fuel k = k ∨
        2 ^ (ttSizeLoop limit fuel k - 1) * sizeofTTBucket ≤ limit) := by
  intro fuel
  induction fuel with
  | zero =>
    intro k h
    exact ⟨le_refl k, h, Or.inl rfl⟩
  | succ f ih =>
    intro k h
    unfold ttSizeLoop
    by_cases hc : 2 ^ k * sizeofTTBucket ≤ limit
    · rw [if_pos hc]
      have h' : limit < 2 ^ (k + 1 + f) * sizeofTTBucket := by
        have hkf : k + 1 + f = k + (f + 1) := by omega
        rw [hkf]
        exact h
      obtain ⟨h1, h2, h3⟩ := ih (k + 1) h'
      refine ⟨by omega, h2, Or.inr ?_⟩
      rcases h3 with h3 | h3
      · rw [h3]
        simpa using hc
      · exact h3
    · rw [if_neg hc]
      exact ⟨le_refl k, by omega, Or.inl rfl⟩

/-- C5: sizing law.  For every requested size of at least 2 megabytes, the
allocated table size in bytes, `(Table.hashMask + 1) * sizeof(TTBucket)`,
is a power of two, at most the requested budget, and strictly more than
half of it. -/
theorem C5_sizing_law (s : TTState) (m : Nat) (hm : 2 ≤ m) :
    ((initTT s m).hashMask + 1) * sizeofTTBucket = 2 ^ (ttKeySize m + 5) ∧
    ((initTT s m).hashMask + 1) * sizeofTTBucket ≤ m * 2 ^ 20 ∧
    m * 2 ^ 20 / 2 < ((initTT s m).hashMask + 1) * sizeofTTBucket := by
  have hmask : (initTT s m).hashMask + 1 = 2 ^ ttKeySize m :=
    Nat.sub_add_cancel (Nat.one_le_two_pow)
  have hfuel : m * 2 ^ 20 / 2 < 2 ^ (16 + m) * sizeofTTBucket := by
    have h1 : m * 2 ^ 20 / 2 = m * 2 ^ 19 := by
      have : m * 2 ^ 20 = m * 2 ^ 19 * 2 := by ring
      rw [this, Nat.mul_div_cancel _ (by norm_num)]
    have h2 : m * 2 ^ 19 < 2 ^ m * 2 ^ 19 :=
      mul_lt_mul_of_pos_right (Nat.lt_two_pow m) (by norm_num)
    have h3 : 2 ^ m * 2 ^ 19 ≤ 2 ^ (16 + m) * sizeofTTBucket := by
      have : 2 ^ m * 2 ^ 19 = 2 ^ (m + 19) := by rw [pow_add]
      rw [this]
      have : 2 ^ (16 + m) * sizeofTTBucket = 2 ^ (m + 21) := by
        show 2 ^ (16 + m) * 32 = 2 ^ (m + 21)
        rw [show (32 : Nat) = 2 ^ 5 from rfl, ← pow_add]
        ring_nf
      rw [this]
      exact Nat.pow_le_pow_right (by norm_num) (by omega)
    omega
  obtain ⟨h16le, hgt, hlast⟩ :=
    ttSizeLoop_spec (m * 2 ^ 20 / 2) m 16 hfuel
  have hkey : ttKeySize m = ttSizeLoop (m * 2 ^ 20 / 2) m 16 := rfl
  rw [hmask]
  refine ⟨?_, ?_, ?_⟩
  · show 2 ^ ttKeySize m * 32 = 2 ^ (ttKeySize m + 5)
    rw [pow_add]
    norm_num
  · rw [hkey]
    rcases hlast with hl | hl
    · rw [hl]
      show 2 ^ 16 * 32 ≤ m * 2 ^ 20
      have : (2 : Nat) ^ 16 * 32 = 2 * 2 ^ 20 := by norm_num
      rw [this]
      exact Nat.mul_le_mul_right _ hm
    · have hr1 : 1 ≤ ttSizeLoop (m * 2 ^ 20 / 2) m 16 := by omega
      have hsplit : 2 ^ ttSizeLoop (m * 2 ^ 20 / 2) m 16 =
          2 * 2 ^ (ttSizeLoop (m * 2 ^ 20 / 2) m 16 - 1) := by
        rw [← pow_succ']
        congr 1
        omega
      rw [hsplit]
      have h2 : 2 * (2 ^ (ttSizeLoop (m * 2 ^ 20 / 2) m 16 - 1) * sizeofTTBucket) ≤
          2 * (m * 2 ^ 20 / 2) := by omega
      have h3 : 2 * (m * 2 ^ 20 / 2) ≤ m * 2 ^ 20 := by omega
      calc 2 * 2 ^ (ttSizeLoop (m * 2 ^ 20 / 2) m 16 - 1) * sizeofTTBucket
          = 2 * (2 ^ (ttSizeLoop (m * 2 ^ 20 / 2) m 16 - 1) * sizeofTTBucket) := by ring
        _ ≤ 2 * (m * 2 ^ 20 / 2) := h2
        _ ≤ m * 2 ^ 20 := h3
  · rw [hkey]
    exact hgt

/-- Witness for C5 at a requested size of 3 megabytes. -/
theorem C5_sizing_law_witness :
    2 ≤ 3 ∧
    (((initTT ttInit 3).hashMask + 1) * sizeofTTBucket =
        2 ^ (ttKeySize 3 + 5) ∧
     ((initTT ttInit 3).hashMask + 1) * sizeofTTBucket ≤ 3 * 2 ^ 20 ∧
     3 * 2 ^ 20 / 2 < ((initTT ttInit 3).hashMask + 1) * sizeofTTBucket) :=
  ⟨by norm_num, C5_sizing_law ttInit 3 (by norm_num)⟩

/-- C9: pawn/king cache.  A probe returns the directly mapped slot exactly
when its stored full hash equals the probe hash; a store unconditionally
overwrites the mapped slot; hence storing `H1` and probing a different
`H2` that maps to the same index reports absent. -/
theorem C9_pk_cache (shift : Nat) (t : PKTable) (H1 H2 p : Nat) (e : Int) :
    (∀ h : Nat,
      (getPKEntry shift t h = some (t.entries (h >>> shift)) ↔
        (t.entries (h >>> shift)).pkhash = h) ∧
      (getPKEntry shift t h = none ↔ (t.entries (h >>> shift)).pkhash ≠ h)) ∧
    (storePKEntry shift t H1 p e).entries (H1 >>> shift) = ⟨H1, p, e⟩ ∧
    (H2 ≠ H1 → H1 >>> shift = H2 >>> shift →
      getPKEntry shift (storePKEntry shift t H1 p e) H2 = none) := by
  refine ⟨fun h => ⟨?_, ?_⟩, ?_, ?_⟩
  · by_cases hc : (t.entries (h >>> shift)).pkhash = h <;>
      simp [getPKEntry, hc]
  · by_cases hc : (t.entries (h >>> shift)).pkhash = h <;>
      simp [getPKEntry, hc]
  · simp [storePKEntry, Function.update_same]
  · intro hne hidx
    have hupd : (storePKEntry shift t H1 p e).entries (H2 >>> shift) =
        ⟨H1, p, e⟩ := by
      have hdef : (storePKEntry shift t H1 p e).entries =
          Function.update t.entries (H1 >>> shift) ⟨H1, p, e⟩ := rfl
      rw [hdef, ← hidx, Function.update_same]
    show (if ((storePKEntry shift t H1 p e).entries (H2 >>> shift)).pkhash = H2
          then some ((storePKEntry shift t H1 p e).entries (H2 >>> shift))
          else none) = none
    rw [hupd]
    exact if_neg (by simpa using Ne.symm hne)

/-- Witness for C9: `shift = 48`, an all-zero table, `H1 = 2^48` and
`H2 = 2^48 + 1` share the direct index 1 and the probe for `H2` misses. -/
theorem C9_pk_cache_witness :
    getPKEntry 48 (storePKEntry 48 ⟨fun _ => ⟨0, 0, 0⟩⟩ (2 ^ 48) 5 7)
      (2 ^ 48 + 1) = none :=
  (C9_pk_cache 48 ⟨fun _ => ⟨0, 0, 0⟩⟩ (2 ^ 48) (2 ^ 48 + 1) 5 7).2.2
    (by norm_num) (by decide)

/-- A degenerate all-zero board value whose packed record is the all-zero
verification record (every square holds piece code 0, no castling rights,
en-passant field 0, white to move). -/
def bZeroEp : Board := ⟨0, 0, 0, 0, 0, 0, 0, 0, 0, 0, 0⟩

/-- C3 (amended): when the discard condition - same signature in the
target slot, non-exact bound, and new depth more than 3 below the stored
depth - holds, the store leaves the state completely unchanged; in every
other case it overwrites the target slot and its verification record with
the new data (which may coincide with the previous contents); in
particular an exact-bound store always overwrites. -/
theorem C3_store_discard_amended (s : TTState) (hash move : Nat)
    (value eval depth : Int) (bound : Nat) (b : Board) :
    (ttDiscard (s.buckets (ttIdx s hash)
        (storeTarget s.generation (s.buckets (ttIdx s hash)) (ttH16 hash)))
        (ttH16 hash) depth bound →
      storeTTEntry s hash move value eval depth bound b = s) ∧
    (¬ ttDiscard (s.buckets (ttIdx s hash)
        (storeTarget s.generation (s.buckets (ttIdx s hash)) (ttH16 hash)))
        (ttH16 hash) depth bound →
      storeTTEntry s hash move value eval depth bound b =
        { s with
          buckets := Function.update s.buckets (ttIdx s hash)
            (Function.update (s.buckets (ttIdx s hash))
              (storeTarget s.generation (s.buckets (ttIdx s hash)) (ttH16 hash))
              (ttNewEntry s.generation (ttH16 hash) move value eval depth bound))
          verif := Function.update s.verif
            (ttIdx s hash * 3 +
              (storeTarget s.generation (s.buckets (ttIdx s hash)) (ttH16 hash)).val)
            (boardToBoardHashSrc b) }) ∧
    (bound = BOUND_EXACT →
      storeTTEntry s hash move value eval depth bound b =
        { s with
          buckets := Function.update s.buckets (ttIdx s hash)
            (Function.update (s.buckets (ttIdx s hash))
              (storeTarget s.generation (s.buckets (ttIdx s hash)) (ttH16 hash))
              (ttNewEntry s.generation (ttH16 hash) move value eval depth bound))
          verif := Function.update s.verif
            (ttIdx s hash * 3 +
              (storeTarget s.generation (s.buckets (ttIdx s hash)) (ttH16 hash)).val)
            (boardToBoardHashSrc b) }) := by
  refine ⟨fun hd => ?_, fun hd => ?_, fun hb => ?_⟩
  · simp only [storeTTEntry]
    rw [if_pos hd]
  · simp only [storeTTEntry]
    rw [if_neg hd]
  · simp only [storeTTEntry]
    rw [if_neg (fun hc => hc.1 hb)]

/-- Counterexample to C3 as stated: storing into the all-zero initial
state with all-zero arguments takes the overwrite branch (the discard
condition is false, as the new depth 0 is not more than 3 below the stored
depth 0), yet the state is left completely unchanged, because the written
slot and verification record coincide with the previous contents.  So
"leaves the state unchanged exactly when the discard condition holds"
fails in the only-if direction. -/
theorem C3_store_discard_counterexample :
    ¬ ttDiscard (ttInit.buckets (ttIdx ttInit 0)
        (storeTarget ttInit.generation (ttInit.buckets (ttIdx ttInit 0)) (ttH16 0)))
      (ttH16 0) 0 BOUND_NONE ∧
    storeTTEntry ttInit 0 0 0 0 0 BOUND_NONE bZeroEp = ttInit := by
  refine ⟨by decide, ?_⟩
  simp only [storeTTEntry]
  rw [if_neg (by decide :
    ¬ ttDiscard (ttInit.buckets (ttIdx ttInit 0)
        (storeTarget ttInit.generation (ttInit.buckets (ttIdx ttInit 0)) (ttH16 0)))
      (ttH16 0) 0 BOUND_NONE)]
  have hE : ttNewEntry ttInit.generation (ttH16 0) 0 0 0 0 BOUND_NONE =
      ttInit.buckets (ttIdx ttInit 0)
        (storeTarget ttInit.generation (ttInit.buckets (ttIdx ttInit 0)) (ttH16 0)) := by
    decide
  have hV : boardToBoardHashSrc bZeroEp =
      ttInit.verif (ttIdx ttInit 0 * 3 +
        (storeTarget ttInit.generation (ttInit.buckets (ttIdx ttInit 0)) (ttH16 0)).val) := by
    decide
  rw [hE, Function.update_eq_self, Function.update_eq_self, hV,
    Function.update_eq_self]

/-- Witness for the amended C3: a concrete discarded store.  The bucket of
`state9` holds a depth-9 exact entry with signature 0; a non-exact store
with the same signature and depth 2 is discarded. -/
def entry9 : TTEntry := ⟨9, 3, 0, 0, 0, 0⟩

def state9 : TTState :=
  { hashMask := 0, generation := 0,
    buckets := fun _ j => if j = 0 then entry9 else TTEntry.zero,
    verif := fun _ => BoardHashSrc.zero, passedLookups := 0,
    verificationFailures := 0 }

theorem C3_store_discard_amended_witness :
    ttDiscard (state9.buckets (ttIdx state9 0)
        (storeTarget state9.generation (state9.buckets (ttIdx state9 0)) (ttH16 0)))
      (ttH16 0) 2 BOUND_LOWER ∧
    storeTTEntry state9 0 0 0 0 2 BOUND_LOWER bZeroEp = state9 :=
  ⟨by decide,
    (C3_store_discard_amended state9 0 0 0 0 2 BOUND_LOWER bZeroEp).1 (by decide)⟩

/-- C10: field truncation on store.  Every store that writes a slot stores
the depth wrapped to a signed 8-bit value, the value and static evaluation
wrapped to signed 16-bit values and the move reduced modulo 2^16, and each
wrap is the identity exactly when the input fits the field width. -/
theorem C10_field_truncation (s : TTState) (hash move : Nat)
    (value eval depth : Int) (bound : Nat) (b : Board)
    (hnd : ¬ ttDiscard (s.buckets (ttIdx s hash)
        (storeTarget s.generation (s.buckets (ttIdx s hash)) (ttH16 hash)))
        (ttH16 hash) depth bound) :
    (storeTTEntry s hash move value eval depth bound b).buckets (ttIdx s hash)
        (storeTarget s.generation (s.buckets (ttIdx s hash)) (ttH16 hash)) =
      { depth := toInt8 depth
        generation := bound % 256 ||| s.generation
        eval := toInt16 eval
        value := toInt16 value
        move := move % 65536
        hash16 := ttH16 hash } ∧
    (toInt8 depth = depth ↔ -128 ≤ depth ∧ depth < 128) ∧
    (toInt16 value = value ↔ -32768 ≤ value ∧ value < 32768) ∧
    (toInt16 eval = eval ↔ -32768 ≤ eval ∧ eval < 32768) ∧
    (move % 65536 = move ↔ move < 65536) := by
  refine ⟨?_, ?_, ?_, ?_, ?_⟩
  · simp only [storeTTEntry]
    rw [if_neg hnd]
    show Function.update s.buckets (ttIdx s hash)
      (Function.update (s.buckets (ttIdx s hash)) _ _) (ttIdx s hash) _ = _
    rw [Function.update_same, Function.update_same]
    rfl
  · unfold toInt8
    omega
  · unfold toInt16
    omega
  · unfold toInt16
    omega
  · constructor
    · intro h
      omega
    · intro h
      exact Nat.mod_eq_of_lt h

/-- Witness for C10: storing depth 300, value 40000, eval -40000 and move
70000 wraps each field. -/
theorem C10_field_truncation_witness :
    ¬ ttDiscard (ttInit.buckets (ttIdx ttInit 0)
        (storeTarget ttInit.generation (ttInit.buckets (ttIdx ttInit 0)) (ttH16 0)))
      (ttH16 0) 300 BOUND_EXACT ∧
    (storeTTEntry ttInit 0 70000 40000 (-40000) 300 BOUND_EXACT bZeroEp).buckets
        (ttIdx ttInit 0)
        (storeTarget ttInit.generation (ttInit.buckets (ttIdx ttInit 0)) (ttH16 0)) =
      { depth := toInt8 300
        generation := BOUND_EXACT % 256 ||| ttInit.generation
        eval := toInt16 (-40000)
        value := toInt16 40000
        move := 70000 % 65536
        hash16 := ttH16 0 } :=
  ⟨by decide,
    (C10_field_truncation ttInit 0 70000 40000 (-40000) 300 BOUND_EXACT bZeroEp
      (by decide)).1⟩

lemma replaceIdx_min (g : Nat) (slots : Fin 3 → TTEntry) :
    ∀ j : Fin 3, ttScore g (slots (replaceIdx g slots)) ≤ ttScore g (slots j) := by
  intro j
  unfold replaceIdx
  by_cases h1 : ttScore g (slots 1) ≤ ttScore g (slots 0)
  · rw [if_pos h1]
    by_cases h2 : ttScore g (slots 2) ≤ ttScore g (slots 1)
    · rw [if_pos h2]
      fin_cases j
      · show ttScore g (slots 2) ≤ ttScore g (slots 0)
        linarith
      · show ttScore g (slots 2) ≤ ttScore g (slots 1)
        linarith
      · show ttScore g (slots 2) ≤ ttScore g (slots 2)
        linarith
    · rw [if_neg h2]
      fin_cases j
      · show ttScore g (slots 1) ≤ ttScore g (slots 0)
        linarith
      · show ttScore g (slots 1) ≤ ttScore g (slots 1)
        linarith
      · show ttScore g (slots 1) ≤ ttScore g (slots 2)
        linarith
  · rw [if_neg h1]
    by_cases h2 : ttScore g (slots 2) ≤ ttScore g (slots 0)
    · rw [if_pos h2]
      fin_cases j
      · show ttScore g (slots 2) ≤ ttScore g (slots 0)
        linarith
      · show ttScore g (slots 2) ≤ ttScore g (slots 1)
        linarith
      · show ttScore g (slots 2) ≤ ttScore g (slots 2)
        linarith
    · rw [if_neg h2]
      fin_cases j
      · show ttScore g (slots 0) ≤ ttScore g (slots 0)
        linarith
      · show ttScore g (slots 0) ≤ ttScore g (slots 1)
        linarith
      · show ttScore g (slots 0) ≤ ttScore g (slots 2)
        linarith

/-- A bucket holding entries of depths 2, 5, 9, all tagged with the current
generation (0) and exact bounds cleared, with pairwise distinct signatures
1, 2, 3. -/
def depth259Bucket : Fin 3 → TTEntry :=
  fun j => if j = 0 then ⟨2, 0, 0, 0, 0, 1⟩
    else if j = 1 then ⟨5, 0, 0, 0, 0, 2⟩ else ⟨9, 0, 0, 0, 0, 3⟩

/-- A single-bucket state holding the depth-2/5/9 bucket. -/
def state259 : TTState :=
  { hashMask := 0, generation := 0, buckets := fun _ => depth259Bucket,
    verif := fun _ => BoardHashSrc.zero, passedLookups := 0,
    verificationFailures := 0 }

/-- C4: replacement preference.  When no slot of the target bucket matches
the probe signature, the store overwrites the slot minimizing the
replacement score `depth - ((259 + generation - slot.generation) & TT_MASK_AGE)`;
in particular, for a bucket holding depths 2, 5, 9 all at the current
generation, a non-matching store evicts the depth-2 entry (slot 0). -/
theorem C4_replacement_preference (s : TTState) (hash move : Nat)
    (value eval depth : Int) (bound : Nat) (b : Board)
    (hnm : ∀ j : Fin 3, (s.buckets (ttIdx s hash) j).hash16 ≠ ttH16 hash) :
    (∀ j : Fin 3,
      ttScore s.generation (s.buckets (ttIdx s hash)
        (replaceIdx s.generation (s.buckets (ttIdx s hash)))) ≤
      ttScore s.generation (s.buckets (ttIdx s hash) j)) ∧
    storeTTEntry s hash move value eval depth bound b =
      { s with
        buckets := Function.update s.buckets (ttIdx s hash)
          (Function.update (s.buckets (ttIdx s hash))
            (replaceIdx s.generation (s.buckets (ttIdx s hash)))
            (ttNewEntry s.generation (ttH16 hash) move value eval depth bound))
        verif := Function.update s.verif
          (ttIdx s hash * 3 +
            (replaceIdx s.generation (s.buckets (ttIdx s hash))).val)
          (boardToBoardHashSrc b) } ∧
    (replaceIdx 0 depth259Bucket = 0 ∧
      (storeTTEntry state259 0 9 1 2 5 BOUND_LOWER bZeroEp).buckets 0 0 =
        ttNewEntry 0 (ttH16 0) 9 1 2 5 BOUND_LOWER) := by
  have hfm : firstMatch (s.buckets (ttIdx s hash)) (ttH16 hash) = none :=
    (firstMatch_none_iff _ _).mpr hnm
  have ht : storeTarget s.generation (s.buckets (ttIdx s hash)) (ttH16 hash) =
      replaceIdx s.generation (s.buckets (ttIdx s hash)) := by
    unfold storeTarget
    rw [hfm]
  refine ⟨replaceIdx_min _ _, ?_, by decide⟩
  have hnd : ¬ ttDiscard (s.buckets (ttIdx s hash)
      (storeTarget s.generation (s.buckets (ttIdx s hash)) (ttH16 hash)))
      (ttH16 hash) depth bound := by
    intro hc
    exact hnm _ hc.2.1.symm
  simp only [storeTTEntry]
  rw [if_neg hnd, ht]

/-- Witness for C4: applying the replacement-preference theorem to the
depth-2/5/9 bucket, the chosen slot's score is at most slot 1's score. -/
theorem C4_replacement_preference_witness :
    ttScore state259.generation (state259.buckets (ttIdx state259 0)
      (replaceIdx state259.generation (state259.buckets (ttIdx state259 0)))) ≤
    ttScore state259.generation (state259.buckets (ttIdx state259 0) 1) :=
  (C4_replacement_preference state259 0 9 1 2 5 BOUND_LOWER bZeroEp
    (by decide)).1 1

lemma getTTEntry_hit (s1 : TTState) (hash : Nat) (b : Board) (t : Fin 3)
    (hfm : firstMatch (s1.buckets (ttIdx s1 hash)) (ttH16 hash) = some t)
    (hv : s1.verif (ttIdx s1 hash * 3 + t.val) = boardToBoardHashSrc b) :
    getTTEntry s1 hash b =
      (some ⟨(s1.buckets (ttIdx s1 hash) t).move,
             (s1.buckets (ttIdx s1 hash) t).value,
             (s1.buckets (ttIdx s1 hash) t).eval,
             (s1.buckets (ttIdx s1 hash) t).depth,
             (s1.generation |||
               ((s1.buckets (ttIdx s1 hash) t).generation &&& TT_MASK_BOUND)) &&&
               TT_MASK_BOUND, t⟩,
       { s1 with
         passedLookups := s1.passedLookups + 1
         buckets := Function.update s1.buckets (ttIdx s1 hash)
           (Function.update (s1.buckets (ttIdx s1 hash)) t
             { s1.buckets (ttIdx s1 hash) t with
               generation := s1.generation |||
                 ((s1.buckets (ttIdx s1 hash) t).generation &&& TT_MASK_BOUND) }) }) := by
  simp only [getTTEntry]
  rw [hfm]
  simp only [verifyTTEntry]
  rw [hv]
  simp

/-- C2: probe/store round trip.  After storing move `M`, score 55,
evaluation 40, depth 10 with an exact bound for hash `hash` against board
`b`, a probe with the same hash and board hits, returns exactly these
values together with the slot index, and leaves the matched slot's
generation byte holding the current generation's age bits with the exact
bound bits preserved. -/
theorem C2_probe_store_round_trip (s : TTState) (hash M : Nat) (b : Board)
    (hM : M < 65536) :
    (getTTEntry (storeTTEntry s hash M 55 40 10 BOUND_EXACT b) hash b).1 =
      some ⟨M, 55, 40, 10, BOUND_EXACT,
        storeTarget s.generation (s.buckets (ttIdx s hash)) (ttH16 hash)⟩ ∧
    ((getTTEntry (storeTTEntry s hash M 55 40 10 BOUND_EXACT b) hash b).2.buckets
        (ttIdx s hash)
        (storeTarget s.generation (s.buckets (ttIdx s hash)) (ttH16 hash))).generation =
      s.generation ||| BOUND_EXACT := by
  have hnd : ¬ ttDiscard (s.buckets (ttIdx s hash)
      (storeTarget s.generation (s.buckets (ttIdx s hash)) (ttH16 hash)))
      (ttH16 hash) 10 BOUND_EXACT := fun hc => hc.1 rfl
  have hstore : storeTTEntry s hash M 55 40 10 BOUND_EXACT b =
      { s with
        buckets := Function.update s.buckets (ttIdx s hash)
          (Function.update (s.buckets (ttIdx s hash))
            (storeTarget s.generation (s.buckets (ttIdx s hash)) (ttH16 hash))
            (ttNewEntry s.generation (ttH16 hash) M 55 40 10 BOUND_EXACT))
        verif := Function.update s.verif
          (ttIdx s hash * 3 +
            (storeTarget s.generation (s.buckets (ttIdx s hash)) (ttH16 hash)).val)
          (boardToBoardHashSrc b) } := by
    simp only [storeTTEntry]
    rw [if_neg hnd]
  rw [hstore]
  set T := storeTarget s.generation (s.buckets (ttIdx s hash)) (ttH16 hash) with hT
  set E := ttNewEntry s.generation (ttH16 hash) M 55 40 10 BOUND_EXACT with hE
  set s1 : TTState :=
    { s with
      buckets := Function.update s.buckets (ttIdx s hash)
        (Function.update (s.buckets (ttIdx s hash)) T E)
      verif := Function.update s.verif (ttIdx s hash * 3 + T.val)
        (boardToBoardHashSrc b) } with hs1
  have hidx : ttIdx s1 hash = ttIdx s hash := rfl
  have hbuck : s1.buckets (ttIdx s1 hash) =
      Function.update (s.buckets (ttIdx s hash)) T E := by
    rw [hidx]
    show Function.update s.buckets (ttIdx s hash)
      (Function.update (s.buckets (ttIdx s hash)) T E) (ttIdx s hash) = _
    exact Function.update_same _ _ _
  have hfm : firstMatch (s1.buckets (ttIdx s1 hash)) (ttH16 hash) = some T := by
    rw [hbuck]
    exact firstMatch_update _ _ _ _ rfl (by rw [hT]; exact storeTarget_pre _ _ _)
  have hv : s1.verif (ttIdx s1 hash * 3 + T.val) = boardToBoardHashSrc b := by
    rw [hidx]
    show Function.update s.verif (ttIdx s hash * 3 + T.val)
      (boardToBoardHashSrc b) (ttIdx s hash * 3 + T.val) = _
    exact Function.update_same _ _ _
  have hslot : s1.buckets (ttIdx s1 hash) T = E := by
    rw [hbuck]
    exact Function.update_same _ _ _
  have hget := getTTEntry_hit s1 hash b T hfm hv
  have hgen : s1.generation = s.generation := rfl
  refine ⟨?_, ?_⟩
  · rw [hget]
    show some (⟨(s1.buckets (ttIdx s1 hash) T).move,
      (s1.buckets (ttIdx s1 hash) T).value,
      (s1.buckets (ttIdx s1 hash) T).eval,
      (s1.buckets (ttIdx s1 hash) T).depth,
      (s1.generation |||
        ((s1.buckets (ttIdx s1 hash) T).generation &&& TT_MASK_BOUND)) &&&
        TT_MASK_BOUND, T⟩ : TTHit) = some ⟨M, 55, 40, 10, BOUND_EXACT, T⟩
    rw [hslot, hgen, hE]
    show some (⟨M % 65536, toInt16 55, toInt16 40, toInt8 10,
      (s.generation ||| ((BOUND_EXACT % 256 ||| s.generation) &&& TT_MASK_BOUND)) &&&
        TT_MASK_BOUND, T⟩ : TTHit) = some ⟨M, 55, 40, 10, BOUND_EXACT, T⟩
    rw [Nat.mod_eq_of_lt hM]
    have hbits : (s.generation |||
        ((BOUND_EXACT % 256 ||| s.generation) &&& TT_MASK_BOUND)) &&&
        TT_MASK_BOUND = BOUND_EXACT := by
      show (s.generation ||| ((3 ||| s.generation) &&& 3)) &&& 3 = 3
      rw [or_three_and_three, or_three_and_three']
    rw [hbits]
    norm_num [toInt16, toInt8]
  · rw [hget]
    show (Function.update s1.buckets (ttIdx s1 hash)
      (Function.update (s1.buckets (ttIdx s1 hash)) T
        { s1.buckets (ttIdx s1 hash) T with
          generation := s1.generation |||
            ((s1.buckets (ttIdx s1 hash) T).generation &&& TT_MASK_BOUND) })
      (ttIdx s hash) T).generation = s.generation ||| BOUND_EXACT
    rw [← hidx, Function.update_same, Function.update_same]
    show s1.generation |||
      ((s1.buckets (ttIdx s1 hash) T).generation &&& TT_MASK_BOUND) = _
    rw [hslot, hgen, hE]
    show s.generation ||| ((BOUND_EXACT % 256 ||| s.generation) &&& TT_MASK_BOUND) =
      s.generation ||| BOUND_EXACT
    show s.generation ||| ((3 ||| s.generation) &&& 3) = s.generation ||| 3
    rw [or_three_and_three]

/-- Witness for C2 on the zeroed initial state with hash 123 and move 42. -/
theorem C2_probe_store_round_trip_witness :
    (getTTEntry (storeTTEntry ttInit 123 42 55 40 10 BOUND_EXACT bZeroEp)
      123 bZeroEp).1 = some ⟨42, 55, 40, 10, BOUND_EXACT,
        storeTarget ttInit.generation (ttInit.buckets (ttIdx ttInit 123))
          (ttH16 123)⟩ ∧
    ((getTTEntry (storeTTEntry ttInit 123 42 55 40 10 BOUND_EXACT bZeroEp)
        123 bZeroEp).2.buckets (ttIdx ttInit 123)
        (storeTarget ttInit.generation (ttInit.buckets (ttIdx ttInit 123))
          (ttH16 123))).generation =
      ttInit.generation ||| BOUND_EXACT :=
  C2_probe_store_round_trip ttInit 123 42 bZeroEp (by norm_num)

/-- Counterexample to C1 as stated: store the all-zero board under hash 0
(whose top 16 bits are 0) into a freshly initialized 2 MB table, then
clear, then probe with the same hash and board.  The probe matches the
zeroed slot 0's signature and the untouched verification record still
equals the board's packing, so the probe returns a hit (with the wiped
all-zero payload and bound `BOUND_NONE`) instead of reporting "not
found". -/
theorem C1_clean_slate_counterexample :
    (getTTEntry (clearTT (storeTTEntry (initTT ttInit 2) 0 7 55 40 10
        BOUND_EXACT bZeroEp)) 0 bZeroEp).1 =
      some ⟨0, 0, 0, 0, BOUND_NONE, 0⟩ := by
  decide

/-- C1 (amended): immediately after a clear, a probe reports "not found"
if and only if it is not the case that both the probe hash's top 16 bits
are zero and the untouched verification record of slot 0 of the probed
bucket equals the probe board's packing.  In particular every probe whose
hash has nonzero top 16 bits misses. -/
theorem C1_clean_slate_amended (s : TTState) (hash : Nat) (b : Board) :
    (getTTEntry (clearTT s) hash b).1 = none ↔
      ¬(ttH16 hash = 0 ∧ s.verif (ttIdx s hash * 3) = boardToBoardHashSrc b) := by
  have hle : ttIdx s hash ≤ s.hashMask := Nat.and_le_right
  have hbuck : (clearTT s).buckets (ttIdx (clearTT s) hash) =
      fun _ => TTEntry.zero := by
    show (if ttIdx s hash ≤ s.hashMask then (fun _ => TTEntry.zero)
      else s.buckets (ttIdx s hash)) = fun _ => TTEntry.zero
    rw [if_pos hle]
  by_cases h0 : ttH16 hash = 0
  · have hfm : firstMatch ((clearTT s).buckets (ttIdx (clearTT s) hash))
        (ttH16 hash) = some 0 := by
      rw [hbuck, h0]
      decide
    by_cases hv : s.verif (ttIdx s hash * 3) = boardToBoardHashSrc b
    · have hv' : (clearTT s).verif
          (ttIdx (clearTT s) hash * 3 + (0 : Fin 3).val) =
          boardToBoardHashSrc b := by
        show s.verif (ttIdx s hash * 3 + 0) = boardToBoardHashSrc b
        rw [Nat.add_zero]
        exact hv
      rw [getTTEntry_hit (clearTT s) hash b 0 hfm hv']
      simp [h0, hv]
    · simp only [getTTEntry]
      rw [hfm]
      simp only [verifyTTEntry]
      have hcond : boardToBoardHashSrc b ≠
          (clearTT s).verif (ttIdx (clearTT s) hash * 3) :=
        fun hc => hv hc.symm
      simp [hcond, h0, hv]
  · have hz : (TTEntry.zero).hash16 ≠ ttH16 hash := fun hc => h0 hc.symm
    have hfm : firstMatch ((clearTT s).buckets (ttIdx (clearTT s) hash))
        (ttH16 hash) = none := by
      rw [hbuck]
      unfold firstMatch
      dsimp only
      rw [if_neg hz, if_neg hz, if_neg hz]
    simp only [getTTEntry]
    rw [hfm]
    simp [h0]

/-- The count described by the spec for the hash-fullness estimate: the
number of slots among the first 1000 buckets (counted bucket by bucket over
the bucket's 3 slots) whose bound bits are not `BOUND_NONE` and whose age
bits equal `Table.generation`. -/
def hashfullCount (s : TTState) : Nat :=
  ∑ i in Finset.range 1000,
    (Finset.univ.filter fun j : Fin 3 =>
      (s.buckets i j).generation &&& TT_MASK_BOUND ≠ BOUND_NONE ∧
      (s.buckets i j).generation &&& TT_MASK_AGE = s.generation).card

/-- C8: the hash-fullness estimate returns exactly the used-slot count over
the first 1000 buckets divided by the bucket width `TT_BUCKET_NB = 3`
(and not by the sample count). -/
theorem C8_hashfull_estimate (s : TTState) :
    hashfullTT s = hashfullCount s / TT_BUCKET_NB :=
  congrArg (fun n => n / TT_BUCKET_NB)
    (Finset.sum_congr rfl (fun _ _ => (Finset.card_filter _ _).symm))

lemma loMask_testBit (i : Nat) :
    (0x0F0F0F0F0F0F0F0F : Nat).testBit i = decide (i < 64 ∧ i % 8 < 4) := by
  by_cases h : i < 64
  · have hb : ∀ j, j < 64 →
        (0x0F0F0F0F0F0F0F0F : Nat).testBit j = decide (j % 8 < 4) := by decide
    rw [hb i h]
    simp [h]
  · have hlt : (0x0F0F0F0F0F0F0F0F : Nat) < 2 ^ i :=
      lt_of_lt_of_le (by norm_num : (0x0F0F0F0F0F0F0F0F : Nat) < 2 ^ 64)
        (Nat.pow_le_pow_right (by norm_num) (by omega))
    rw [Nat.testBit_lt_two_pow hlt]
    simp [h]

lemma hiMask_testBit (i : Nat) :
    (0xF0F0F0F0F0F0F0F0 : Nat).testBit i = decide (i < 64 ∧ 4 ≤ i % 8) := by
  by_cases h : i < 64
  · have hb : ∀ j, j < 64 →
        (0xF0F0F0F0F0F0F0F0 : Nat).testBit j = decide (4 ≤ j % 8) := by decide
    rw [hb i h]
    simp [h]
  · have hlt : (0xF0F0F0F0F0F0F0F0 : Nat) < 2 ^ i :=
      lt_of_lt_of_le (by norm_num : (0xF0F0F0F0F0F0F0F0 : Nat) < 2 ^ 64)
        (Nat.pow_le_pow_right (by norm_num) (by omega))
    rw [Nat.testBit_lt_two_pow hlt]
    simp [h]

lemma byteMask_testBit (i : Nat) :
    (0xFF : Nat).testBit i = decide (i < 8) := by
  by_cases h : i < 8
  · have hb : ∀ j, j < 8 → (0xFF : Nat).testBit j = true := by decide
    rw [hb i h]
    simp [h]
  · have hlt : (0xFF : Nat) < 2 ^ i :=
      lt_of_lt_of_le (by norm_num : (0xFF : Nat) < 2 ^ 8)
        (Nat.pow_le_pow_right (by norm_num) (by omega))
    rw [Nat.testBit_lt_two_pow hlt]
    simp [h]

lemma midMask_testBit (i : Nat) :
    (0x00FFFFFFFFFFFF00 : Nat).testBit i = decide (8 ≤ i ∧ i < 56) := by
  by_cases h : i < 64
  · have hb : ∀ j, j < 64 →
        (0x00FFFFFFFFFFFF00 : Nat).testBit j = decide (8 ≤ j ∧ j < 56) := by
      decide
    exact hb i h
  · have hlt : (0x00FFFFFFFFFFFF00 : Nat) < 2 ^ i :=
      lt_of_lt_of_le (by norm_num : (0x00FFFFFFFFFFFF00 : Nat) < 2 ^ 64)
        (Nat.pow_le_pow_right (by norm_num) (by omega))
    rw [Nat.testBit_lt_two_pow hlt]
    have : ¬(8 ≤ i ∧ i < 56) := by omega
    simp [this]

/-- A word all of whose bytes have a clear high nibble has set bits only at
positions below 64 with position mod 8 below 4. -/
lemma valid_word_bits {w : Nat} (hlt : w < 2 ^ 64)
    (h4 : w &&& 0xF0F0F0F0F0F0F0F0 = 0) :
    ∀ i, w.testBit i = true → i < 64 ∧ i % 8 < 4 := by
  intro i hw
  have h1 : i < 64 := by
    by_contra hge
    have hz : w.testBit i = false :=
      Nat.testBit_lt_two_pow
        (lt_of_lt_of_le hlt (Nat.pow_le_pow_right (by norm_num) (by omega)))
    rw [hz] at hw
    exact Bool.false_ne_true hw
  refine ⟨h1, ?_⟩
  by_contra hm
  push_neg at hm
  have hand : (w &&& 0xF0F0F0F0F0F0F0F0).testBit i = false := by
    rw [h4]
    exact Nat.zero_testBit i
  rw [Nat.testBit_and, hw, hiMask_testBit] at hand
  simp [h1, hm] at hand

/-- A castling-rights word with no bits in positions 8..55 (and none at 64
or above) has set bits only in the low byte or the high byte. -/
lemma valid_castle_bits {cr : Nat} (hlt : cr < 2 ^ 64)
    (hm : cr &&& 0x00FFFFFFFFFFFF00 = 0) :
    ∀ i, cr.testBit i = true → i < 8 ∨ (56 ≤ i ∧ i < 64) := by
  intro i hw
  have h1 : i < 64 := by
    by_contra hge
    have hz : cr.testBit i = false :=
      Nat.testBit_lt_two_pow
        (lt_of_lt_of_le hlt (Nat.pow_le_pow_right (by norm_num) (by omega)))
    rw [hz] at hw
    exact Bool.false_ne_true hw
  by_contra hc
  push_neg at hc
  have hmid : 8 ≤ i ∧ i < 56 := by omega
  have hand : (cr &&& 0x00FFFFFFFFFFFF00).testBit i = false := by
    rw [hm]
    exact Nat.zero_testBit i
  rw [Nat.testBit_and, hw, midMask_testBit] at hand
  simp [hmid] at hand

/-- Unpacking the low nibbles of a packed pair recovers the even word. -/
lemma pack_pair_low {a c : Nat} (ha64 : a < 2 ^ 64)
    (ha4 : a &&& 0xF0F0F0F0F0F0F0F0 = 0) (hc64 : c < 2 ^ 64)
    (hc4 : c &&& 0xF0F0F0F0F0F0F0F0 = 0) :
    (a ||| (c <<< 4) % 2 ^ 64) &&& 0x0F0F0F0F0F0F0F0F = a := by
  apply Nat.eq_of_testBit_eq
  intro i
  rw [Nat.testBit_and, Nat.testBit_or, Nat.testBit_mod_two_pow,
    Nat.testBit_shiftLeft, loMask_testBit]
  by_cases hai : a.testBit i = true
  · obtain ⟨h1, h2⟩ := valid_word_bits ha64 ha4 i hai
    simp [hai, h1, h2]
  · have hai' : a.testBit i = false := Bool.eq_false_iff.mpr hai
    rw [hai']
    by_cases hm : i < 64 ∧ i % 8 < 4
    · rcases Nat.lt_or_ge i 4 with h4i | h4i
      · have : ¬(4 ≤ i) := by omega
        simp [hm, this]
      · have hcb : c.testBit (i - 4) = false := by
          by_contra hct
          have hcs := valid_word_bits hc64 hc4 (i - 4)
            (Bool.not_eq_false _ |>.mp hct)
          omega
        simp [hm, hcb]
    · simp [hm]

/-- Unpacking the high nibbles of a packed pair recovers the odd word. -/
lemma pack_pair_high {a c : Nat} (ha64 : a < 2 ^ 64)
    (ha4 : a &&& 0xF0F0F0F0F0F0F0F0 = 0) (hc64 : c < 2 ^ 64)
    (hc4 : c &&& 0xF0F0F0F0F0F0F0F0 = 0) :
    ((a ||| (c <<< 4) % 2 ^ 64) >>> 4) &&& 0x0F0F0F0F0F0F0F0F = c := by
  apply Nat.eq_of_testBit_eq
  intro i
  rw [Nat.testBit_and, Nat.testBit_shiftRight, Nat.testBit_or,
    Nat.testBit_mod_two_pow, Nat.testBit_shiftLeft, loMask_testBit]
  have h44 : 4 + i - 4 = i := by omega
  rw [h44]
  by_cases hci : c.testBit i = true
  · obtain ⟨h1, h2⟩ := valid_word_bits hc64 hc4 i hci
    have hab : a.testBit (4 + i) = false := by
      by_contra hat
      have has := valid_word_bits ha64 ha4 (4 + i)
        (Bool.not_eq_false _ |>.mp hat)
      omega
    have h164 : 4 + i < 64 := by omega
    have h44le : 4 ≤ 4 + i := by omega
    simp [hci, hab, h1, h2, h164, h44le]
  · have hci' : c.testBit i = false := Bool.eq_false_iff.mpr hci
    rw [hci']
    by_cases hm : i < 64 ∧ i % 8 < 4
    · have hab : a.testBit (4 + i) = false := by
        by_contra hat
        have has := valid_word_bits ha64 ha4 (4 + i)
          (Bool.not_eq_false _ |>.mp hat)
        omega
      simp [hab, hm]
    · simp [hm]

/-- Recombining the two castling bytes recovers the composite field. -/
lemma pack_castle {cr : Nat} (h64 : cr < 2 ^ 64)
    (hm : cr &&& 0x00FFFFFFFFFFFF00 = 0) :
    (cr &&& 0xFF) ||| ((cr >>> 56) &&& 0xFF) <<< 56 = cr := by
  apply Nat.eq_of_testBit_eq
  intro i
  rw [Nat.testBit_or, Nat.testBit_and, Nat.testBit_shiftLeft,
    Nat.testBit_and, Nat.testBit_shiftRight, byteMask_testBit,
    byteMask_testBit]
  by_cases hci : cr.testBit i = true
  · rcases valid_castle_bits h64 hm i hci with h8 | h56
    · simp [hci, h8]
    · have h56le : 56 ≤ i := h56.1
      have hof : 56 + (i - 56) = i := by omega
      have hi8 : ¬(i < 8) := by omega
      have him8 : i - 56 < 8 := by omega
      rw [hof, hci]
      simp [hi8, h56le, him8]
  · have hci' : cr.testBit i = false := Bool.eq_false_iff.mpr hci
    rw [hci']
    by_cases h56 : 56 ≤ i
    · have hof : 56 + (i - 56) = i := by omega
      rw [hof, hci']
      simp
    · simp [h56]

/-- C7: packing losslessness.  For every valid board, each packed word's
low nibbles recover the even raw word, its high nibbles recover the odd
raw word, and recombining the two per-side castling bytes recovers the
composite castling field. -/
theorem C7_packing_losslessness (b : Board) (hb : ValidBoard b) :
    ((boardToBoardHashSrc b).ps0 &&& 0x0F0F0F0F0F0F0F0F = b.w0 ∧
     ((boardToBoardHashSrc b).ps0 >>> 4) &&& 0x0F0F0F0F0F0F0F0F = b.w1) ∧
    ((boardToBoardHashSrc b).ps1 &&& 0x0F0F0F0F0F0F0F0F = b.w2 ∧
     ((boardToBoardHashSrc b).ps1 >>> 4) &&& 0x0F0F0F0F0F0F0F0F = b.w3) ∧
    ((boardToBoardHashSrc b).ps2 &&& 0x0F0F0F0F0F0F0F0F = b.w4 ∧
     ((boardToBoardHashSrc b).ps2 >>> 4) &&& 0x0F0F0F0F0F0F0F0F = b.w5) ∧
    ((boardToBoardHashSrc b).ps3 &&& 0x0F0F0F0F0F0F0F0F = b.w6 ∧
     ((boardToBoardHashSrc b).ps3 >>> 4) &&& 0x0F0F0F0F0F0F0F0F = b.w7) ∧
    (boardToBoardHashSrc b).castleRooksW |||
      (boardToBoardHashSrc b).castleRooksB <<< 56 = b.castleRooks := by
  obtain ⟨h0, h1, h2, h3, h4, h5, h6, h7, n0, n1, n2, n3, n4, n5, n6, n7,
    hc64, hcm⟩ := hb
  exact ⟨⟨pack_pair_low h0 n0 h1 n1, pack_pair_high h0 n0 h1 n1⟩,
    ⟨pack_pair_low h2 n2 h3 n3, pack_pair_high h2 n2 h3 n3⟩,
    ⟨pack_pair_low h4 n4 h5 n5, pack_pair_high h4 n4 h5 n5⟩,
    ⟨pack_pair_low h6 n6 h7 n7, pack_pair_high h6 n6 h7 n7⟩,
    pack_castle hc64 hcm⟩

/-- A concrete valid board: nibble-clean square words, rooks on the corner
squares of the first and last ranks. -/
def bConcrete : Board :=
  ⟨0x0E0D0C0B0A090800, 0x0102030405060708, 0x0000000000000E06, 0, 0, 0,
    0x0B00000000000000, 0x0000000003000000, 0x8100000000000081, -1, 1⟩

/-- Witness for C7 at the concrete valid board. -/
theorem C7_packing_losslessness_witness :
    ValidBoard bConcrete ∧
    (boardToBoardHashSrc bConcrete).ps0 &&& 0x0F0F0F0F0F0F0F0F =
      bConcrete.w0 ∧
    (boardToBoardHashSrc bConcrete).castleRooksW |||
      (boardToBoardHashSrc bConcrete).castleRooksB <<< 56 =
      bConcrete.castleRooks :=
  ⟨by decide,
    (C7_packing_losslessness bConcrete (by decide)).1.1,
    (C7_packing_losslessness bConcrete (by decide)).2.2.2.2⟩

/-- Witness for the amended C1: on the zeroed state, a post-clear probe
with a hash whose top 16 bits are nonzero misses. -/
theorem C1_clean_slate_amended_witness :
    (getTTEntry (clearTT ttInit) (2 ^ 48) bZeroEp).1 = none :=
  (C1_clean_slate_amended ttInit (2 ^ 48) bZeroEp).mpr (by decide)
